import Mathlib

/-
Verification development for the claude-esp repository: a shallow embedding of
the record parser (internal/parser) and of the ingestion watcher
(internal/watcher/watcher.go, second revision in the file, which is the one the
claims cite), together with proofs and refutations of the spec's claims.

Modelling conventions:
* Go strings are Lean `String`s; byte-level operations are modelled on
  `List Char` (all inputs of interest are ASCII, where bytes and characters
  coincide).
* The filesystem is passed explicitly: a file's bytes as `List Char`, the
  existence test of `os.Stat` as `String → Bool`, directory listings as
  `List String`, line-indexed text files as `String → List String`.
* `encoding/json` is modelled in two layers, as in Go: a syntax layer turning
  the line's characters into a `Json` value (numbers keep their source text;
  Go's case-insensitive fallback for object keys is not modelled, field names
  are matched exactly), and a decode layer that mirrors `json.Unmarshal` into
  the repository's concrete struct types: `null` leaves a field unchanged,
  a type mismatch is an error, unknown keys are ignored, a later duplicate
  key overwrites an earlier one.
* Concurrency (locks, channels, the poll loop's scheduling) is out of scope;
  the per-pass state transformations the claims are about are modelled as
  pure functions on explicit state.
-/

namespace ClaudeEsp

/-! Character and list primitives shared by the models of Go's `strings` and
`bufio` helpers. -/

/-- Whitespace class of `strings.TrimSpace` (ASCII part of `unicode.IsSpace`). -/
def isWsChar (c : Char) : Bool :=
  c = ' ' || c = '\t' || c = '\n' || c = '\r' || c = '\x0b' || c = '\x0c'

/-- Models `strings.TrimSpace` on the characters of a line. -/
def trimSpaceL (l : List Char) : List Char :=
  ((l.dropWhile isWsChar).reverse.dropWhile isWsChar).reverse

/-- Models `strings.HasPrefix s pre`. -/
def hasPre : List Char → List Char → Bool
  | _, [] => true
  | [], _ :: _ => false
  | c :: cs, p :: ps => c = p && hasPre cs ps

/-- Models `strings.HasSuffix s suf`. -/
def hasSuf (s suf : List Char) : Bool :=
  hasPre s.reverse suf.reverse

/-- Models `strings.TrimPrefix`. -/
def trimPre (s pre : List Char) : List Char :=
  if hasPre s pre then s.drop pre.length else s

/-- Models `strings.TrimSuffix`. -/
def trimSuf (s suf : List Char) : List Char :=
  if hasSuf s suf then s.take (s.length - suf.length) else s

/-- Models `strings.Contains s sub` (substring test). -/
def containsSub (s sub : List Char) : Bool :=
  match s with
  | [] => sub = []
  | _ :: rest => hasPre s sub || containsSub rest sub

/-- Models `strings.Index s sub`: byte index of the first occurrence, `none`
when absent (Go returns -1). -/
def indexOfSub (s sub : List Char) : Option Nat :=
  match s with
  | [] => if sub = [] then some 0 else none
  | _ :: rest =>
    if hasPre s sub then some 0
    else (indexOfSub rest sub).map (· + 1)

/-- Models `strings.Split s "-"` for a one-character separator: the list of
fields between occurrences of the separator. -/
def splitOnChar (sep : Char) : List Char → List (List Char)
  | [] => [[]]
  | c :: rest =>
    match splitOnChar sep rest with
    | [] => [[c]]
    | h :: t => if c = sep then [] :: h :: t else (c :: h) :: t

/-- Models `strings.Join parts sep`. -/
def joinWith (sep : List Char) : List (List Char) → List Char
  | [] => []
  | [p] => p
  | p :: rest => p ++ sep ++ joinWith sep rest

/-- Models `strings.ReplaceAll s "-" "/"` for one-character old and new. -/
def replaceAllChar (a b : Char) (s : List Char) : List Char :=
  s.map fun c => if c = a then b else c

/-- Models `filepath.Base`: the part of the path after the last slash (the
cleaning Go performs on empty or slash-terminated paths is not needed by the
paths the claims use). -/
def baseName (path : List Char) : List Char :=
  match splitOnChar '/' path with
  | [] => path
  | parts => parts.getLastD path

/-- String wrapper around `containsSub`. -/
def strContains (s sub : String) : Bool := containsSub s.toList sub.toList

/-! JSON value model. A number keeps its source text: the repository never
decodes a number into a Go field, so the literal is all that is needed. -/

inductive Json where
  | null : Json
  | jbool : Bool → Json
  | jnum : String → Json
  | jstr : String → Json
  | jarr : List Json → Json
  | jobj : List (String × Json) → Json
deriving Inhabited

/-! Syntax layer: a fuel-driven recursive-descent reader of one JSON document,
modelling the syntax half of `json.Unmarshal`. -/

/-- JSON inter-token whitespace. -/
def isJsonWs (c : Char) : Bool :=
  c = ' ' || c = '\t' || c = '\n' || c = '\r'

def skipWs (l : List Char) : List Char := l.dropWhile isJsonWs

/-- Reads a string literal body after the opening quote, handling the JSON
escapes; returns the decoded characters and the input after the closing
quote. -/
def readStrLit : List Char → Option (List Char × List Char)
  | [] => none
  | '"' :: rest => some ([], rest)
  | '\\' :: e :: rest =>
    match e with
    | '"' => (readStrLit rest).map fun (s, r) => ('"' :: s, r)
    | '\\' => (readStrLit rest).map fun (s, r) => ('\\' :: s, r)
    | '/' => (readStrLit rest).map fun (s, r) => ('/' :: s, r)
    | 'n' => (readStrLit rest).map fun (s, r) => ('\n' :: s, r)
    | 't' => (readStrLit rest).map fun (s, r) => ('\t' :: s, r)
    | 'r' => (readStrLit rest).map fun (s, r) => ('\r' :: s, r)
    | 'b' => (readStrLit rest).map fun (s, r) => ('\x08' :: s, r)
    | 'f' => (readStrLit rest).map fun (s, r) => ('\x0c' :: s, r)
    | _ => none
  | c :: rest => (readStrLit rest).map fun (s, r) => (c :: s, r)

def isDigitChar (c : Char) : Bool := '0' ≤ c && c ≤ '9'

/-- Reads a JSON number literal, keeping its text. -/
def readNum (l : List Char) : Option (List Char × List Char) :=
  let (neg, l1) := match l with
    | '-' :: r => ([('-' : Char)], r)
    | _ => ([], l)
  let ds := l1.takeWhile isDigitChar
  let l2 := l1.dropWhile isDigitChar
  if ds.isEmpty then none
  else
    let (frac, l3) := match l2 with
      | '.' :: r =>
        let fs := r.takeWhile isDigitChar
        if fs.isEmpty then ([], l2) else ('.' :: fs, r.dropWhile isDigitChar)
      | _ => ([], l2)
    let (ex, l4) := match l3 with
      | 'e' :: r => match r with
        | '+' :: r2 =>
          let es := r2.takeWhile isDigitChar
          if es.isEmpty then ([], l3)
          else ('e' :: '+' :: es, r2.dropWhile isDigitChar)
        | '-' :: r2 =>
          let es := r2.takeWhile isDigitChar
          if es.isEmpty then ([], l3)
          else ('e' :: '-' :: es, r2.dropWhile isDigitChar)
        | _ =>
          let es := r.takeWhile isDigitChar
          if es.isEmpty then ([], l3) else ('e' :: es, r.dropWhile isDigitChar)
      | 'E' :: r =>
        let es := r.takeWhile isDigitChar
        if es.isEmpty then ([], l3) else ('E' :: es, r.dropWhile isDigitChar)
      | _ => ([], l3)
    some (neg ++ ds ++ frac ++ ex, l4)

mutual

/-- Reads one JSON value. -/
def readValue : Nat → List Char → Option (Json × List Char)
  | 0, _ => none
  | fuel + 1, l =>
    match skipWs l with
    | 'n' :: 'u' :: 'l' :: 'l' :: rest => some (.null, rest)
    | 't' :: 'r' :: 'u' :: 'e' :: rest => some (.jbool true, rest)
    | 'f' :: 'a' :: 'l' :: 's' :: 'e' :: rest => some (.jbool false, rest)
    | '"' :: rest =>
      (readStrLit rest).map fun (s, r) => (.jstr (String.mk s), r)
    | '[' :: rest => readElems fuel (skipWs rest)
    | '\x7b' :: rest => readFields fuel (skipWs rest)
    | l2 =>
      match l2 with
      | c :: _ =>
        if c = '-' || isDigitChar c then
          (readNum l2).map fun (ds, r) => (.jnum (String.mk ds), r)
        else none
      | [] => none

/-- Reads array elements after `[` (whitespace already skipped). -/
def readElems : Nat → List Char → Option (Json × List Char)
  | 0, _ => none
  | fuel + 1, l =>
    match l with
    | ']' :: rest => some (.jarr [], rest)
    | _ =>
      match readValue fuel l with
      | none => none
      | some (v, r) =>
        match readMoreElems fuel (skipWs r) with
        | none => none
        | some (vs, r2) => some (.jarr (v :: vs), r2)

/-- Reads `, value` repetitions and the closing `]`. -/
def readMoreElems : Nat → List Char → Option (List Json × List Char)
  | 0, _ => none
  | fuel + 1, l =>
    match l with
    | ']' :: rest => some ([], rest)
    | ',' :: rest =>
      match readValue fuel rest with
      | none => none
      | some (v, r) =>
        match readMoreElems fuel (skipWs r) with
        | none => none
        | some (vs, r2) => some (v :: vs, r2)
    | _ => none

/-- Reads object fields after the opening brace (whitespace already skipped). -/
def readFields : Nat → List Char → Option (Json × List Char)
  | 0, _ => none
  | fuel + 1, l =>
    match l with
    | '\x7d' :: rest => some (.jobj [], rest)
    | _ =>
      match readField fuel l with
      | none => none
      | some (kv, r) =>
        match readMoreFields fuel (skipWs r) with
        | none => none
        | some (kvs, r2) => some (.jobj (kv :: kvs), r2)

/-- Reads one `"key": value` pair. -/
def readField : Nat → List Char → Option ((String × Json) × List Char)
  | 0, _ => none
  | fuel + 1, l =>
    match l with
    | '"' :: rest =>
      match readStrLit rest with
      | none => none
      | some (k, r) =>
        match skipWs r with
        | ':' :: r2 =>
          match readValue fuel r2 with
          | none => none
          | some (v, r3) => some ((String.mk k, v), r3)
        | _ => none
    | _ => none

/-- Reads `, "key": value` repetitions and the closing brace. -/
def readMoreFields : Nat → List Char → Option (List (String × Json) × List Char)
  | 0, _ => none
  | fuel + 1, l =>
    match l with
    | '\x7d' :: rest => some ([], rest)
    | ',' :: rest =>
      match readField fuel (skipWs rest) with
      | none => none
      | some (kv, r) =>
        match readMoreFields fuel (skipWs r) with
        | none => none
        | some (kvs, r2) => some (kv :: kvs, r2)
    | _ => none

end

/-- Syntax half of `json.Unmarshal`: one JSON document with nothing but
whitespace after it. -/
def jsonDoc (l : List Char) : Option Json :=
  match readValue (4 * l.length + 8) l with
  | none => none
  | some (j, rest) => if skipWs rest = [] then some j else none

/-! Record parser data model, from internal/parser (src/unnamed/part_001). -/

/-- StreamItemType of parser.go. -/
inductive StreamItemType where
  | thinking
  | toolInput
  | toolOutput
  | text
deriving DecidableEq, Repr

/-- StreamItem of parser.go. The Timestamp field is omitted from the model:
on a parse failure the code substitutes the current wall-clock time, which a
pure embedding cannot observe, and no claim mentions timestamps. -/
structure StreamItem where
  type : StreamItemType
  sessionID : String := ""
  agentID : String := ""
  agentName : String := ""
  content : String := ""
  toolName : String := ""
  toolID : String := ""
deriving DecidableEq, Repr

/-- RawMessage of parser.go; Message (a `json.RawMessage`) is `none` when the
field is absent (a nil slice, which `json.Unmarshal` rejects) and `some v`
otherwise, including `some .null`. -/
structure RawMessage where
  type : String := ""
  agentId : String := ""
  sessionId : String := ""
  timestamp : String := ""
  message : Option Json := none

/-- ContentBlock of parser.go. -/
structure ContentBlock where
  type : String := ""
  text : String := ""
  thinking : String := ""
  id : String := ""
  name : String := ""
  input : Option Json := none

/-- AssistantMessage of parser.go. -/
structure AssistantMessage where
  role : String := ""
  content : List ContentBlock := []

/-- ToolResult of parser.go: note Content is a plain Go `string`. -/
structure ToolResult where
  type : String := ""
  toolUseID : String := ""
  content : String := ""
  isError : Bool := false

/-- ToolInput of parser.go. -/
structure ToolInput where
  command : String := ""
  description : String := ""
  pattern : String := ""
  path : String := ""
  filePath : String := ""
  content : String := ""
  prompt : String := ""
  query : String := ""

/-! Decode layer: `json.Unmarshal` into the concrete struct types above.
A JSON `null` leaves the destination unchanged; a type mismatch is an error
(Go records the first such error and `Unmarshal` returns it, and every caller
in the repository then discards the partially filled value). -/

/-- Decodes a JSON value into a Go `string` field whose current value is
`cur`. -/
def decStr (cur : String) : Json → Option String
  | .jstr s => some s
  | .null => some cur
  | _ => none

/-- Decodes a JSON value into a Go `bool` field. -/
def decBool (cur : Bool) : Json → Option Bool
  | .jbool b => some b
  | .null => some cur
  | _ => none

/-- Unmarshal into RawMessage. -/
def decodeRawMessage : Json → Option RawMessage
  | .null => some {}
  | .jobj fields =>
    fields.foldlM (fun r (kv : String × Json) =>
      if kv.1 = "type" then (decStr r.type kv.2).map fun s => { r with type := s }
      else if kv.1 = "agentId" then
        (decStr r.agentId kv.2).map fun s => { r with agentId := s }
      else if kv.1 = "sessionId" then
        (decStr r.sessionId kv.2).map fun s => { r with sessionId := s }
      else if kv.1 = "timestamp" then
        (decStr r.timestamp kv.2).map fun s => { r with timestamp := s }
      else if kv.1 = "message" then some { r with message := some kv.2 }
      else some r) ({} : RawMessage)
  | _ => none

/-- Unmarshal one element of a `[]ContentBlock`. -/
def decodeContentBlock : Json → Option ContentBlock
  | .null => some {}
  | .jobj fields =>
    fields.foldlM (fun b (kv : String × Json) =>
      if kv.1 = "type" then (decStr b.type kv.2).map fun s => { b with type := s }
      else if kv.1 = "text" then (decStr b.text kv.2).map fun s => { b with text := s }
      else if kv.1 = "thinking" then
        (decStr b.thinking kv.2).map fun s => { b with thinking := s }
      else if kv.1 = "id" then (decStr b.id kv.2).map fun s => { b with id := s }
      else if kv.1 = "name" then (decStr b.name kv.2).map fun s => { b with name := s }
      else if kv.1 = "input" then some { b with input := some kv.2 }
      else some b) ({} : ContentBlock)
  | _ => none

/-- Unmarshal into AssistantMessage. -/
def decodeAssistantMessage : Json → Option AssistantMessage
  | .null => some {}
  | .jobj fields =>
    fields.foldlM (fun m (kv : String × Json) =>
      if kv.1 = "role" then (decStr m.role kv.2).map fun s => { m with role := s }
      else if kv.1 = "content" then
        match kv.2 with
        | .null => some m
        | .jarr xs => (xs.mapM decodeContentBlock).map fun bs => { m with content := bs }
        | _ => none
      else some m) ({} : AssistantMessage)
  | _ => none

/-- Unmarshal one element of a `[]ToolResult`. The `content` key accepts only
a JSON string (or `null`): an array of sub-blocks is a type mismatch, exactly
as for the Go field `Content string`. -/
def decodeToolResult : Json → Option ToolResult
  | .null => some {}
  | .jobj fields =>
    fields.foldlM (fun t (kv : String × Json) =>
      if kv.1 = "type" then (decStr t.type kv.2).map fun s => { t with type := s }
      else if kv.1 = "tool_use_id" then
        (decStr t.toolUseID kv.2).map fun s => { t with toolUseID := s }
      else if kv.1 = "content" then
        (decStr t.content kv.2).map fun s => { t with content := s }
      else if kv.1 = "is_error" then
        (decBool t.isError kv.2).map fun b => { t with isError := b }
      else some t) ({} : ToolResult)
  | _ => none

/-- Unmarshal of `raw.Message` in parseUserMessage into the anonymous
`struct { Content *[]ToolResult }` whose pointer writes through to `results`:
the decoded slice, `[]` when the content key is absent or null. -/
def decodeUserResults : Json → Option (List ToolResult)
  | .null => some []
  | .jobj fields =>
    fields.foldlM (fun cur (kv : String × Json) =>
      if kv.1 = "content" then
        match kv.2 with
        | .null => some cur
        | .jarr xs => xs.mapM decodeToolResult
        | _ => none
      else some cur) ([] : List ToolResult)
  | _ => none

/-- Unmarshal into ToolInput. -/
def decodeToolInput : Json → Option ToolInput
  | .null => some {}
  | .jobj fields =>
    fields.foldlM (fun t (kv : String × Json) =>
      if kv.1 = "command" then (decStr t.command kv.2).map fun s => { t with command := s }
      else if kv.1 = "description" then
        (decStr t.description kv.2).map fun s => { t with description := s }
      else if kv.1 = "pattern" then
        (decStr t.pattern kv.2).map fun s => { t with pattern := s }
      else if kv.1 = "path" then (decStr t.path kv.2).map fun s => { t with path := s }
      else if kv.1 = "file_path" then
        (decStr t.filePath kv.2).map fun s => { t with filePath := s }
      else if kv.1 = "content" then
        (decStr t.content kv.2).map fun s => { t with content := s }
      else if kv.1 = "prompt" then (decStr t.prompt kv.2).map fun s => { t with prompt := s }
      else if kv.1 = "query" then (decStr t.query kv.2).map fun s => { t with query := s }
      else some t) ({} : ToolInput)
  | _ => none

/-! Rendering a retained `json.RawMessage` back to text (Go's `string(inputRaw)`).
The model keeps the parsed value, not the original bytes, so this canonical
serialization stands in for the raw text; no claim inspects its exact shape. -/

/-- JSON string escaping for the canonical serialization. -/
def escapeStrChar (c : Char) : List Char :=
  if c = '"' then ['\\', '"']
  else if c = '\\' then ['\\', '\\']
  else if c = '\n' then ['\\', 'n']
  else if c = '\t' then ['\\', 't']
  else if c = '\r' then ['\\', 'r']
  else [c]

mutual

def renderJson : Json → String
  | .null => "null"
  | .jbool true => "true"
  | .jbool false => "false"
  | .jnum lit => lit
  | .jstr s => "\"" ++ String.mk (s.toList.flatMap escapeStrChar) ++ "\""
  | .jarr xs => "[" ++ renderList xs ++ "]"
  | .jobj fs => "\x7b" ++ renderFieldList fs ++ "\x7d"

def renderList : List Json → String
  | [] => ""
  | [x] => renderJson x
  | x :: xs => renderJson x ++ "," ++ renderList xs

def renderFieldList : List (String × Json) → String
  | [] => ""
  | [kv] => "\"" ++ kv.1 ++ "\":" ++ renderJson kv.2
  | kv :: kvs => "\"" ++ kv.1 ++ "\":" ++ renderJson kv.2 ++ "," ++ renderFieldList kvs

end

/-! The parser functions of internal/parser, translated from the source. -/

/-- formatToolInput of parser.go. -/
def formatToolInput (toolName : String) (inputRaw : Option Json) : String :=
  match inputRaw with
  | none => ""
  | some j =>
    match decodeToolInput j with
    | none => renderJson j
    | some input =>
      if toolName = "Bash" then
        if input.description ≠ "" then
          input.command ++ "\n  # " ++ input.description
        else input.command
      else if toolName = "Read" then input.filePath
      else if toolName = "Write" then
        input.filePath ++ " (" ++ toString input.content.utf8ByteSize ++ " bytes)"
      else if toolName = "Edit" then input.filePath
      else if toolName = "Glob" then
        if input.path ≠ "" then input.pattern ++ " in " ++ input.path
        else input.pattern
      else if toolName = "Grep" then
        if input.path ≠ "" then "/" ++ input.pattern ++ "/ in " ++ input.path
        else "/" ++ input.pattern ++ "/"
      else if toolName = "WebFetch" then input.prompt
      else if toolName = "WebSearch" then input.query
      else if toolName = "Task" then input.prompt
      else renderJson j

/-- Derived display name: "Main" for the main session, otherwise "Agent-" and
the first seven bytes of the agent identifier (bytes equal characters for the
ASCII identifiers in the logs). -/
def agentDisplayName (agentId : String) : String :=
  if agentId = "" then "Main"
  else "Agent-" ++ String.mk (agentId.toList.take 7)

/-- parseAssistantMessage of parser.go. -/
def parseAssistantMessage (raw : RawMessage) : List StreamItem :=
  match raw.message with
  | none => []
  | some mj =>
    match decodeAssistantMessage mj with
    | none => []
    | some msg =>
      let agentName := agentDisplayName raw.agentId
      msg.content.flatMap fun block =>
        if block.type = "thinking" then
          if block.thinking ≠ "" then
            [{ type := .thinking, agentID := raw.agentId, agentName := agentName,
               content := block.thinking }]
          else []
        else if block.type = "text" then
          if block.text ≠ "" then
            [{ type := .text, agentID := raw.agentId, agentName := agentName,
               content := block.text }]
          else []
        else if block.type = "tool_use" then
          [{ type := .toolInput, agentID := raw.agentId, agentName := agentName,
             content := formatToolInput block.name block.input,
             toolName := block.name, toolID := block.id }]
        else []

/-- parseUserMessage of parser.go. -/
def parseUserMessage (raw : RawMessage) : List StreamItem :=
  match raw.message with
  | none => []
  | some mj =>
    match decodeUserResults mj with
    | none => []
    | some results =>
      let agentName := agentDisplayName raw.agentId
      results.flatMap fun result =>
        if result.type = "tool_result" then
          [{ type := .toolOutput, agentID := raw.agentId, agentName := agentName,
             content := result.content, toolID := result.toolUseID }]
        else []

/-- ParseLine of parser.go: blank lines yield no items and no error; a line
that fails to unmarshal into RawMessage yields the error; otherwise the items
of the assistant or user record, or none for an unknown discriminator. -/
def ParseLine (line : String) : Except String (List StreamItem) :=
  if trimSpaceL line.toList = [] then .ok []
  else
    match jsonDoc line.toList with
    | none => .error "failed to parse JSON"
    | some j =>
      match decodeRawMessage j with
      | none => .error "failed to parse JSON"
      | some raw =>
        .ok (if raw.type = "assistant" then parseAssistantMessage raw
             else if raw.type = "user" then parseUserMessage raw
             else [])

/-! Watcher layer, from internal/watcher/watcher.go (the later revision in the
file, whose line numbers the claims cite). -/

/-- AutoSkipLineThreshold of watcher.go. -/
def AutoSkipLineThreshold : Nat := 100

/-- KeepRecentLines of watcher.go. -/
def KeepRecentLines : Nat := 10

/-- AgentIDDisplayLength of watcher.go. -/
def AgentIDDisplayLength : Nat := 7

/-- Models `filepath.Dir`: the path up to the last slash ("." when there is
none, "/" at the root, as in Go for the clean absolute paths used here). -/
def dirName (path : String) : String :=
  let parts := splitOnChar '/' path.toList
  match parts with
  | [] => "."
  | [_] => "."
  | _ =>
    match joinWith ['/'] parts.dropLast with
    | [] => "/"
    | l => String.mk l

/-- isMainSessionFile of watcher.go. -/
def isMainSessionFile (path : String) (isDir : Bool) : Bool :=
  if isDir then false
  else if !hasSuf path.toList ".jsonl".toList then false
  else if containsSub path.toList "/subagents/".toList then false
  else if hasPre (baseName path.toList) "agent-".toList then false
  else true

/-- One candidate of resolveProjectPath's loop body: parts before `joinFrom`
joined with "/", the rest re-joined with "-", probed on disk with a leading
slash and returned without it. -/
def tryCandidate (statOk : String → Bool) (parts : List (List Char))
    (joinFrom : Nat) : Option String :=
  let pathPart := String.mk (joinWith ['/'] (parts.take joinFrom))
  let dirPart := String.mk (joinWith ['-'] (parts.drop joinFrom))
  if statOk ("/" ++ (pathPart ++ "/" ++ dirPart)) then
    some (pathPart ++ "/" ++ dirPart)
  else none

/-- The loop of resolveProjectPath: `joinFrom` runs from `len(parts)-1` down
to 1. -/
def scanCandidates (statOk : String → Bool) (parts : List (List Char)) :
    Nat → Option String
  | 0 => none
  | j + 1 =>
    match tryCandidate statOk parts (j + 1) with
    | some r => some r
    | none => scanCandidates statOk parts j

/-- resolveProjectPath of watcher.go; `statOk` models `os.Stat` succeeding. -/
def resolveProjectPath (statOk : String → Bool) (encoded : String) : String :=
  let enc := trimPre encoded.toList ['-']
  if enc = [] then ""
  else
    let parts := splitOnChar '-' enc
    match scanCandidates statOk parts (parts.length - 1) with
    | some r => r
    | none => String.mk (replaceAllChar '-' '/' enc)

/-- getClaudeProjectsDir of watcher.go. The process environment `env` and the
home directory resolved by `os.UserHomeDir` are passed explicitly; the source
consults only the home directory (it never reads `env`) and joins it with
".claude/projects". -/
def getClaudeProjectsDir (env : String → Option String) (home : Option String) :
    Except String String :=
  match home with
  | none => .error "failed to get home dir"
  | some h => .ok (h ++ "/.claude" ++ "/projects")

/-- Follows the spec's words ("Root directory is resolved from an overridable
environment variable with a fixed default fallback location") and the repo's
own TestGetClaudeProjectsDir: a set, non-empty CLAUDE_HOME overrides the
home-based default. Stated only to be compared with `getClaudeProjectsDir`. -/
def getClaudeProjectsDirSpec (env : String → Option String)
    (home : Option String) : Except String String :=
  match env "CLAUDE_HOME" with
  | some d => if d = "" then getClaudeProjectsDir env home else .ok (d ++ "/projects")
  | none => getClaudeProjectsDir env home

/-- A filesystem entry seen by `filepath.Walk`, with its modification time. -/
structure FsEntry where
  path : String
  modTime : Int
  isDir : Bool := false
deriving DecidableEq, Repr

/-- The strict "more recently modified" comparator of findSession's
`sort.Slice` (`ModTime().After`), taken reflexively for the model's stable
insertion sort; Go's unstable sort realizes some order with the same pairwise
guarantee. -/
def moreRecent (a b : FsEntry) : Prop := b.modTime ≤ a.modTime

instance : DecidableRel moreRecent := fun a b => inferInstanceAs (Decidable (b.modTime ≤ a.modTime))

instance : IsTotal FsEntry moreRecent := ⟨fun a b => Int.le_total b.modTime a.modTime⟩

instance : IsTrans FsEntry moreRecent := ⟨fun _ _ _ h1 h2 => le_trans h2 h1⟩

/-- findSession of watcher.go, on the walk's entries: collect main session
files, sort most-recently-modified first, and (for a non-empty identifier)
return the first whose path contains the identifier as a substring. The
returned value is the selected main file's path (buildSession, which never
fails, derives the Session from it). -/
def findSession (entries : List FsEntry) (sessionID : String) :
    Except String String :=
  let jsonlFiles := entries.filter fun e => isMainSessionFile e.path e.isDir
  if jsonlFiles.isEmpty then .error "no session files found"
  else
    let sorted := List.insertionSort moreRecent jsonlFiles
    if sessionID ≠ "" then
      match sorted.find? (fun f => strContains f.path sessionID) with
      | some f => .ok f.path
      | none => .error ("session " ++ sessionID ++ " not found")
    else
      match sorted with
      | [] => .error "no session files found"
      | f :: _ => .ok f.path

/-! Background-task correlation. Text files are given as their list of lines
(the scanner's view; a missing file reads as no lines, matching the open-error
early returns); directory listings as `Option (List String)` of entry names. -/

/-- BackgroundTask of watcher.go. -/
structure BackgroundTask where
  toolID : String
  parentAgentID : String
  toolName : String
  outputPath : String
  isComplete : Bool
deriving DecidableEq, Repr

/-- NewBackgroundTaskMsg of watcher.go. -/
structure NewBackgroundTaskMsg where
  sessionID : String
  parentAgentID : String
  toolID : String
  toolName : String
  outputPath : String
  isComplete : Bool
deriving DecidableEq, Repr

/-- Session of watcher.go (the fields the claims touch). The subagent and
background-task maps are association lists in a fixed order standing in for
Go's unspecified map iteration order. -/
structure Session where
  id : String
  mainFile : String
  subagents : List (String × String) := []
  backgroundTasks : List (String × BackgroundTask) := []
deriving DecidableEq, Repr

/-- The filesystem as the correlator sees it. -/
structure FileSys where
  lines : String → List String
  dirs : String → Option (List String)

/-- The closing-quote scan of extractField: the number of characters before
the first unescaped quote (the whole remainder when none), with the
escaped-quote test skipped at the very first position as in the Go loop. -/
def closeQuoteScan (first : Bool) (prev : Char) : List Char → Nat
  | [] => 0
  | c :: rest =>
    if c = '"' && (first || prev ≠ '\\') then 0
    else 1 + closeQuoteScan false c rest

/-- The pattern loop of extractField. -/
def extractFieldAux (l : List Char) : List (List Char) → String
  | [] => ""
  | pat :: rest =>
    match indexOfSub l pat with
    | none => extractFieldAux l rest
    | some idx =>
      let start := idx + pat.length
      let cnt := closeQuoteScan true ' ' (l.drop start)
      if cnt > 0 then String.mk ((l.drop start).take cnt)
      else extractFieldAux l rest

/-- extractField of watcher.go. -/
def extractField (line field : String) : String :=
  extractFieldAux line.toList
    [("\"" ++ field ++ "\":\"").toList, ("\"" ++ field ++ "\": \"").toList]

/-- formatToolName of watcher.go (the 30-byte truncation is modelled on
characters; the identifiers and commands involved are ASCII). -/
def formatToolName (toolName line : String) : String :=
  let cmd := extractField line "command"
  let desc := extractField line "description"
  if toolName = "Bash" && cmd ≠ "" then
    "Bash: " ++ (if cmd.toList.length > 30 then String.mk (cmd.toList.take 30) ++ "..." else cmd)
  else if toolName = "Task" && desc ≠ "" then
    "Task: " ++ (if desc.toList.length > 30 then String.mk (desc.toList.take 30) ++ "..." else desc)
  else toolName

/-- The name-pattern loop of extractToolNameFromLine: an empty captured name
(`end = 0`) falls through to the next pattern, as in the Go `end > 0` test. -/
def toolNamePatScan (l : List Char) (full : String) : List (List Char) → String
  | [] => ""
  | pat :: rest =>
    match indexOfSub l pat with
    | none => toolNamePatScan l full rest
    | some idx =>
      let start := idx + pat.length
      match indexOfSub (l.drop start) ['"'] with
      | some e =>
        if e > 0 then formatToolName (String.mk ((l.drop start).take e)) full
        else toolNamePatScan l full rest
      | none => toolNamePatScan l full rest

/-- extractToolNameFromLine of watcher.go (its toolID parameter is unused in
the source as well: the caller has already checked the line contains it). -/
def extractToolNameFromLine (line toolID : String) : String :=
  let l := line.toList
  if !(containsSub l "\"type\":\"tool_use\"".toList)
      && !(containsSub l "\"type\": \"tool_use\"".toList) then ""
  else toolNamePatScan l line ["\"name\":\"".toList, "\"name\": \"".toList]

/-- findToolInFile of watcher.go. -/
def findToolInFile (lines : List String) (toolID : String) : String :=
  match lines with
  | [] => ""
  | line :: rest =>
    if !(strContains line toolID) then findToolInFile rest toolID
    else
      let toolName := extractToolNameFromLine line toolID
      if toolName ≠ "" then toolName else findToolInFile rest toolID

/-- findBackgroundTaskParent of watcher.go. -/
def findBackgroundTaskParent (fsLines : String → List String) (s : Session)
    (toolID : String) : String × String :=
  let mainName := findToolInFile (fsLines s.mainFile) toolID
  if mainName ≠ "" then ("", mainName)
  else
    match s.subagents.find? (fun ap => findToolInFile (fsLines ap.2) toolID ≠ "") with
    | some ap => (ap.1, findToolInFile (fsLines ap.2) toolID)
    | none => ("", "Background Task")

/-- fileContainsToolResult of watcher.go. -/
def fileContainsToolResult (lines : List String) (toolID : String) : Bool :=
  lines.any fun line => strContains line toolID && strContains line "\"tool_result\""

/-- isBackgroundTaskComplete of watcher.go. -/
def isBackgroundTaskComplete (fsLines : String → List String) (s : Session)
    (toolID : String) : Bool :=
  fileContainsToolResult (fsLines s.mainFile) toolID ||
    s.subagents.any fun ap => fileContainsToolResult (fsLines ap.2) toolID

/-- One iteration of checkForBackgroundTasks' directory loop: skip non-.txt
entries and entries whose tool identifier is already tracked
(`if exists { continue }`); otherwise look the task up, compute its completion
once, insert it and offer a notification. -/
def bgStep (fs : FileSys) (toolResultsDir sessID : String)
    (acc : Session × List NewBackgroundTaskMsg) (name : String) :
    Session × List NewBackgroundTaskMsg :=
  let cur := acc.1
  let msgs := acc.2
  if !hasSuf name.toList ".txt".toList then (cur, msgs)
  else
    let toolID := String.mk (trimSuf name.toList ".txt".toList)
    if (cur.backgroundTasks.lookup toolID).isSome then (cur, msgs)
    else
      let outputPath := toolResultsDir ++ "/" ++ name
      let pn := findBackgroundTaskParent fs.lines cur toolID
      let isComplete := isBackgroundTaskComplete fs.lines cur toolID
      let task : BackgroundTask :=
        ⟨toolID, pn.1, pn.2, outputPath, isComplete⟩
      ({ cur with backgroundTasks := cur.backgroundTasks ++ [(toolID, task)] },
       msgs ++ [⟨sessID, pn.1, toolID, pn.2, outputPath, isComplete⟩])

/-- checkForBackgroundTasks of watcher.go: one pass over the tool-results
directory (the channel's default-drop is not modelled: the returned list is
the offered messages). -/
def checkForBackgroundTasks (fs : FileSys) (s : Session) :
    Session × List NewBackgroundTaskMsg :=
  let toolResultsDir := dirName s.mainFile ++ "/" ++ s.id ++ "/tool-results"
  match fs.dirs toolResultsDir with
  | none => (s, [])
  | some entries =>
    entries.foldl (bgStep fs toolResultsDir s.id) (s, ([] : List NewBackgroundTaskMsg))

/-! File tailer. A file's bytes are its characters (`none` = the open fails);
positions are the watcher's filePositions map. The bufio scanner's 1MB line
cap is not modelled: the logs' lines are assumed within it, and no claim is
about the over-long-line error path. -/

/-- dropCR of bufio.ScanLines: strips one trailing carriage return. -/
def dropCR (l : List Char) : List Char :=
  if hasSuf l ['\r'] then l.dropLast else l

/-- Accumulating scan of bufio.ScanLines over the whole remaining data: a
token per newline, and the final token returned at EOF even without a newline
(no token for empty trailing data). -/
def scanLinesAux : List Char → List Char → List (List Char)
  | [], acc => if acc.isEmpty then [] else [dropCR acc.reverse]
  | c :: rest, acc =>
    if c = '\n' then dropCR acc.reverse :: scanLinesAux rest []
    else scanLinesAux rest (c :: acc)

/-- The complete lines the scanner yields from `data`. -/
def scanLines (data : List Char) : List (List Char) :=
  scanLinesAux data []

/-- The watcher's filePositions map. -/
def Positions : Type := String → Option Nat

/-- Models writing one entry of filePositions. -/
def setPos (ps : Positions) (path : String) (v : Nat) : Positions :=
  fun q => if q = path then some v else ps q

/-- The empty filePositions map of a fresh watcher. -/
def noPositions : Positions := fun _ => none

/-- The per-item stamping of readFile's inner loop: the session identifier is
always set; the context agent identifier and its display name only when the
record itself carried none. -/
def stampItem (sessionID agentID : String) (item : StreamItem) : StreamItem :=
  let item1 := { item with sessionID := sessionID }
  if agentID ≠ "" && item1.agentID = "" then
    { item1 with agentID := agentID,
                 agentName := "Agent-" ++ String.mk (agentID.toList.take AgentIDDisplayLength) }
  else item1

/-- readFile of watcher.go: seek to the recorded position (0 when none), scan
lines to EOF, parse each, and record the resulting stream position. Parse
errors go to the error list (the Errors channel); items to the item list (the
Items channel). A failed open leaves everything untouched. -/
def readFile (content : String → Option (List Char)) (ps : Positions)
    (path sessionID agentID : String) :
    Positions × List StreamItem × List String :=
  match content path with
  | none => (ps, [], [])
  | some bytes =>
    let start := (ps path).getD 0
    let data := bytes.drop start
    let res := (scanLines data).foldl
      (fun acc l =>
        match ParseLine (String.mk l) with
        | .error e => (acc.1, acc.2 ++ [e])
        | .ok items => (acc.1 ++ items.map (stampItem sessionID agentID), acc.2))
      (([] : List StreamItem), ([] : List String))
    let newPos := start + data.length
    (setPos ps path newPos, res.1, res.2)

/-- countFileLines of watcher.go: newline count, 0 when the open fails. -/
def countFileLines (content : String → Option (List Char)) (path : String) : Nat :=
  match content path with
  | none => 0
  | some bytes => (bytes.filter (· = '\n')).length

/-- The newline byte-offset collection of findPositionForLastNLines: for each
newline at index i, the position i+1 just after it. -/
def newlinePositionsAux : List Char → Nat → List Nat
  | [], _ => []
  | c :: rest, i =>
    if c = '\n' then (i + 1) :: newlinePositionsAux rest (i + 1)
    else newlinePositionsAux rest (i + 1)

def newlinePositions (bytes : List Char) : List Nat :=
  newlinePositionsAux bytes 0

/-- findPositionForLastNLines of watcher.go. -/
def findPositionForLastNLines (content : String → Option (List Char))
    (path : String) (n : Nat) : Nat :=
  match content path with
  | none => 0
  | some bytes =>
    let ps := newlinePositions bytes
    if ps.length ≤ n then 0 else ps.getD (ps.length - n) 0

/-- The files of a session in processing order: main file, then subagents. -/
def sessionFilesOf (s : Session) : List String :=
  s.mainFile :: s.subagents.map (·.2)

/-- countTotalLines of watcher.go. -/
def countTotalLines (content : String → Option (List Char))
    (sessions : List Session) : Nat :=
  sessions.foldl
    (fun acc s => (sessionFilesOf s).foldl (fun a p => a + countFileLines content p) acc) 0

/-- skipToEndOfFiles of watcher.go (later revision): every file of the session
gets the position preserving the last KeepRecentLines lines. -/
def skipToEndOfFiles (content : String → Option (List Char)) (ps : Positions)
    (s : Session) : Positions :=
  let ps1 := setPos ps s.mainFile
    (findPositionForLastNLines content s.mainFile KeepRecentLines)
  s.subagents.foldl
    (fun acc ap => setPos acc ap.2 (findPositionForLastNLines content ap.2 KeepRecentLines))
    ps1

/-- readSessionFiles of watcher.go: the main file, then every subagent file. -/
def readSessionFiles (content : String → Option (List Char)) (ps : Positions)
    (s : Session) : Positions × List StreamItem × List String :=
  let first := readFile content ps s.mainFile s.id ""
  s.subagents.foldl
    (fun acc ap =>
      let next := readFile content acc.1 ap.2 s.id ap.1
      (next.1, acc.2.1 ++ next.2.1, acc.2.2 ++ next.2.2))
    first

/-- initializeSessionReading of watcher.go: skip when requested or when the
total pre-existing line count exceeds the threshold, otherwise tail every
session's files from their recorded positions (none at startup). -/
def initializeSessionReading (skipHistory : Bool)
    (content : String → Option (List Char)) (ps : Positions)
    (sessions : List Session) : Positions × List StreamItem × List String :=
  let shouldSkip := skipHistory || decide (countTotalLines content sessions > AutoSkipLineThreshold)
  if shouldSkip then
    (sessions.foldl (fun acc s => skipToEndOfFiles content acc s) ps, [], [])
  else
    sessions.foldl
      (fun acc s =>
        let next := readSessionFiles content acc.1 s
        (next.1, acc.2.1 ++ next.2.1, acc.2.2 ++ next.2.2))
      (ps, ([] : List StreamItem), ([] : List String))

/-! Characterization definitions stated independently of the loops they
describe, used to give the claim theorems content beyond the definitions
themselves. -/

/-- The candidate resolveProjectPath returns for split point `joinFrom`. -/
def candidateAt (parts : List (List Char)) (joinFrom : Nat) : String :=
  String.mk (joinWith ['/'] (parts.take joinFrom))
    ++ "/" ++ String.mk (joinWith ['-'] (parts.drop joinFrom))

/-- All candidates in the order the loop probes them: split points from
`len(parts)-1` down to 1. -/
def resolveCandidates (enc : List Char) : List String :=
  let parts := splitOnChar '-' enc
  (List.range (parts.length - 1)).reverse.map fun j => candidateAt parts (j + 1)

/-- Newline count of a byte string (the characterization counterpart of
countFileLines). -/
def countNl (bytes : List Char) : Nat := (bytes.filter (· = '\n')).length

/-! Concrete inputs used by the claim theorems, witnesses and counterexamples.
The two tool-result lines are the exact inputs of the repository's own
TestParseLine_UserToolResult and TestParseLine_MCPToolResultMultiBlock. -/

/-- The user-record line whose tool-result content is a plain string. -/
def plainResultLine : String :=
  "\x7b\"type\":\"user\",\"timestamp\":\"2025-01-01T12:00:00Z\",\"message\":\x7b\"role\":\"user\",\"content\":[\x7b\"type\":\"tool_result\",\"tool_use_id\":\"toolu_abc\",\"content\":\"file contents here\"\x7d]\x7d\x7d"

/-- The user-record line whose tool-result content is an array of two text
sub-blocks "block one" and "block two". -/
def mcpMultiLine : String :=
  "\x7b\"type\":\"user\",\"timestamp\":\"2025-01-01T12:00:00Z\",\"message\":\x7b\"role\":\"user\",\"content\":[\x7b\"type\":\"tool_result\",\"tool_use_id\":\"toolu_mcp2\",\"content\":[\x7b\"type\":\"text\",\"text\":\"block one\"\x7d,\x7b\"type\":\"text\",\"text\":\"block two\"\x7d]\x7d]\x7d\x7d"

/-- An assistant-record line with a single non-empty thinking block. -/
def thinkLine : String :=
  "\x7b\"type\":\"assistant\",\"message\":\x7b\"content\":[\x7b\"type\":\"thinking\",\"thinking\":\"hi\"\x7d]\x7d\x7d"

/-- The JSON value of the thinking block of `thinkLine`. -/
def thinkBlockJson : Json :=
  .jobj [("type", .jstr "thinking"), ("thinking", .jstr "hi")]

/-- The JSON value of the message field of `thinkLine`. -/
def thinkMsgJson : Json :=
  .jobj [("content", .jarr [thinkBlockJson])]

/-- The JSON value of `thinkLine`. -/
def thinkLineJson : Json :=
  .jobj [("type", .jstr "assistant"), ("message", thinkMsgJson)]

/-- A valid-JSON line with an unknown top-level discriminator. -/
def sysLine : String := "\x7b\"type\":\"system\"\x7d"

/-- A one-file filesystem whose file "m" holds `thinkLine` with no trailing
newline: a tail pass over it meets a trailing partial line. -/
def partialFs : String → Option (List Char) :=
  fun p => if p = "m" then some thinkLine.toList else none

/-- Eleven newline-terminated one-character lines ("a\n" eleven times). -/
def elevenLines : List Char :=
  (List.replicate 11 ['a', '\n']).flatten

/-- The session of the C5 scenario. -/
def sessC5 : Session := { id := "s5", mainFile := "/p/-x/s5.jsonl" }

/-- The C5 filesystem: the session's main file holds `elevenLines`. -/
def fsC5 : String → Option (List Char) :=
  fun p => if p = "/p/-x/s5.jsonl" then some elevenLines else none

/-- The session of the C2 scenario. -/
def sessC2 : Session := { id := "s2", mainFile := "/p/-y/s2.jsonl" }

/-- C2 first pass: the artifact t1.txt exists, no result record anywhere. -/
def fs1C2 : FileSys :=
  { lines := fun _ => []
    dirs := fun d => if d = "/p/-y/s2/tool-results" then some ["t1.txt"] else none }

/-- C2 second pass: the main file now holds a line containing the tool
identifier t1 and a quoted tool_result marker. -/
def fs2C2 : FileSys :=
  { lines := fun p => if p = "/p/-y/s2.jsonl" then ["x t1 \"tool_result\" x"] else []
    dirs := fun d => if d = "/p/-y/s2/tool-results" then some ["t1.txt"] else none }

/-- The session state after the first C2 pass. -/
def sessC2After1 : Session := (checkForBackgroundTasks fs1C2 sessC2).1

/-- The task recorded by the first C2 pass. -/
def taskC2 : BackgroundTask :=
  ⟨"t1", "", "Background Task", "/p/-y/s2/tool-results/t1.txt", false⟩

/-- The environment of the repository's TestGetClaudeProjectsDir. -/
def envC9 : String → Option String :=
  fun k => if k = "CLAUDE_HOME" then some "/tmp/test-claude" else none

/-- The walk entries of the C10 witness: two session files match "beta", the
more recently modified one first after sorting. -/
def entriesC10 : List FsEntry :=
  [⟨"/r/-p/alpha.jsonl", 5, false⟩, ⟨"/r/-p/beta.jsonl", 9, false⟩,
   ⟨"/r/-p/beta2.jsonl", 3, false⟩]

end ClaudeEsp

namespace ClaudeEsp

set_option maxRecDepth 16000

/-! Claim theorems. -/

/-- C1: the spec (and the repository's own MCP tool-result tests) require an
array-valued tool-result content field to be concatenated text sub-blocks with
newline separators; the code's `ToolResult.Content` is a plain Go `string`, so
`json.Unmarshal` fails on the array and parseUserMessage discards the whole
record. Evaluating the embedded code: the repository test line with sub-blocks
"block one", "block two" yields zero events (the test expects one event with
content "block one\nblock two"), while the plain-string line works. -/
theorem parseLine_toolResult_array_dropped :
    ParseLine mcpMultiLine = .ok []
    ∧ ParseLine plainResultLine =
        .ok [{ type := .toolOutput, agentName := "Main",
               content := "file contents here",
               toolID := "toolu_abc" }] :=
  ⟨rfl, rfl⟩

/-- C6: a well-formed assistant-record line whose message content is a
thinking block parses to exactly one thinking event carrying the block's text
when the text is non-empty, and to zero events when it is empty. -/
theorem parseLine_thinking_block (line : String) (j : Json) (raw : RawMessage)
    (m : Json) (msg : AssistantMessage) (b : ContentBlock)
    (hblank : trimSpaceL line.toList ≠ [])
    (hj : jsonDoc line.toList = some j)
    (hr : decodeRawMessage j = some raw)
    (ht : raw.type = "assistant")
    (hm : raw.message = some m)
    (hd : decodeAssistantMessage m = some msg)
    (hc : msg.content = [b])
    (hbt : b.type = "thinking") :
    (b.thinking ≠ "" →
      ParseLine line = .ok [{ type := .thinking, agentID := raw.agentId,
                              agentName := agentDisplayName raw.agentId,
                              content := b.thinking }])
    ∧ (b.thinking = "" → ParseLine line = .ok []) := by
  have hblank2 : ¬trimSpaceL line.data = [] := hblank
  have hj2 : jsonDoc line.data = some j := hj
  constructor <;> intro h <;>
    simp [ParseLine, hblank2, hj2, hr, ht, parseAssistantMessage, hm, hd, hc, hbt, h]

/-- Witness for C6 at `thinkLine`. -/
theorem parseLine_thinking_block_witness :
    ParseLine thinkLine = .ok [{ type := .thinking, agentID := "",
                                 agentName := agentDisplayName "",
                                 content := "hi" }] :=
  (parseLine_thinking_block thinkLine thinkLineJson
    { type := "assistant", message := some thinkMsgJson }
    thinkMsgJson
    { content := [{ type := "thinking", thinking := "hi" }] }
    { type := "thinking", thinking := "hi" }
    (by decide) rfl rfl rfl rfl rfl rfl rfl).1 (by decide)

/-- C7 counterexample: the line "[]" is non-blank and is valid JSON, yet
ParseLine returns an error (a JSON array cannot unmarshal into the RawMessage
struct), contradicting the claim's "error if and only if non-blank and not
valid JSON". -/
theorem parseLine_error_on_valid_json :
    (jsonDoc "[]".toList).isSome = true
    ∧ trimSpaceL "[]".toList ≠ []
    ∧ ParseLine "[]" = .error "failed to parse JSON" :=
  ⟨rfl, by decide, rfl⟩

/-- C7 amended: blank lines yield no error and zero events; the parser errors
exactly when the line is non-blank and fails to unmarshal into the top-level
record shape (valid JSON whose value decodes into RawMessage); and a decodable
record with an unknown discriminator yields zero events and no error. -/
theorem parseLine_error_characterization (line : String) :
    (trimSpaceL line.toList = [] → ParseLine line = .ok [])
    ∧ ((∃ e, ParseLine line = .error e) ↔
        trimSpaceL line.toList ≠ []
          ∧ (jsonDoc line.toList).bind decodeRawMessage = none)
    ∧ (∀ j raw, trimSpaceL line.toList ≠ [] → jsonDoc line.toList = some j →
        decodeRawMessage j = some raw → raw.type ≠ "assistant" →
        raw.type ≠ "user" → ParseLine line = .ok []) := by
  refine ⟨fun h => by simp [ParseLine, show trimSpaceL line.data = [] from h], ?_, ?_⟩
  · by_cases hb : trimSpaceL line.data = []
    · simp [ParseLine, hb]
    · cases hj : jsonDoc line.data with
      | none => simp [ParseLine, hb, hj]
      | some j =>
        cases hr : decodeRawMessage j with
        | none => simp [ParseLine, hb, hj, hr]
        | some raw => simp [ParseLine, hb, hj, hr]
  · intro j raw hb hj hr h1 h2
    simp [ParseLine, show ¬trimSpaceL line.data = [] from hb,
          show jsonDoc line.data = some j from hj, hr, h1, h2]

/-- Witness for C7's amended theorem at the unknown-discriminator line. -/
theorem parseLine_unknown_discriminator_witness :
    ParseLine sysLine = .ok [] :=
  (parseLine_error_characterization sysLine).2.2
    (.jobj [("type", .jstr "system")]) { type := "system" }
    (by decide) rfl rfl (by decide) (by decide)

/-! Tailer lemmas. -/

/-- Helper: reading the map entry just written. -/
theorem setPos_same (ps : Positions) (path : String) (v : Nat) :
    setPos ps path v path = some v := by
  simp [setPos]

/-- Helper: reading another map entry. -/
theorem setPos_other (ps : Positions) (path q : String) (v : Nat)
    (h : q ≠ path) : setPos ps path v q = ps q := by
  simp [setPos, h]

/-- Helper: the positions map after a successful open. -/
theorem readFile_pos_some (content : String → Option (List Char))
    (ps : Positions) (path sessionID agentID : String) (bytes : List Char)
    (hc : content path = some bytes) :
    (readFile content ps path sessionID agentID).1
      = setPos ps path ((ps path).getD 0 + (bytes.drop ((ps path).getD 0)).length) := by
  simp only [readFile, hc]

/-- Helper: the scanner walking accumulated characters up to a newline. -/
theorem scanLinesAux_middle (v : List Char) :
    ∀ (u acc : List Char), '\n' ∉ u →
      scanLinesAux (u ++ '\n' :: v) acc = dropCR (acc.reverse ++ u) :: scanLinesAux v []
  | [], acc, _ => by simp [scanLinesAux]
  | c :: u', acc, h => by
    have hc : ¬c = '\n' := fun hEq => h (hEq ▸ List.mem_cons_self c u')
    have ih := scanLinesAux_middle v u' (c :: acc) (fun hm => h (List.mem_cons_of_mem c hm))
    have e : (c :: acc).reverse ++ u' = acc.reverse ++ c :: u' := by simp
    simp only [List.cons_append, scanLinesAux, if_neg hc]
    exact e ▸ ih

/-- Helper: the scanner at EOF on data without a newline. -/
theorem scanLinesAux_tail :
    ∀ (v acc : List Char), '\n' ∉ v →
      scanLinesAux v acc =
        if acc.reverse ++ v = [] then [] else [dropCR (acc.reverse ++ v)]
  | [], acc, _ => by
    simp [scanLinesAux, List.isEmpty_iff]
  | c :: v', acc, h => by
    have hc : ¬c = '\n' := fun hEq => h (hEq ▸ List.mem_cons_self c v')
    have ih := scanLinesAux_tail v' (c :: acc) (fun hm => h (List.mem_cons_of_mem c hm))
    have e : (c :: acc).reverse ++ v' = acc.reverse ++ c :: v' := by simp
    simp only [scanLinesAux, if_neg hc]
    exact e ▸ ih

/-- C4: a second tail pass with no bytes appended in between is a no-op: it
emits zero events and zero errors, and the recorded offset of every file is
unchanged. -/
theorem readFile_second_pass_noop (content : String → Option (List Char))
    (ps : Positions) (path sessionID agentID : String) :
    ((readFile content (readFile content ps path sessionID agentID).1
        path sessionID agentID).2.1 = []
      ∧ (readFile content (readFile content ps path sessionID agentID).1
          path sessionID agentID).2.2 = [])
    ∧ ∀ q, (readFile content (readFile content ps path sessionID agentID).1
        path sessionID agentID).1 q
        = (readFile content ps path sessionID agentID).1 q := by
  cases hc : content path with
  | none => simp [readFile, hc]
  | some bytes =>
    have hfirst := readFile_pos_some content ps path sessionID agentID bytes hc
    have hdrop : bytes.drop ((ps path).getD 0 + (bytes.drop ((ps path).getD 0)).length)
        = [] := by
      refine List.drop_eq_nil_of_le ?_
      simp only [List.length_drop]
      omega
    have hsecond : readFile content (readFile content ps path sessionID agentID).1
        path sessionID agentID
        = (setPos (readFile content ps path sessionID agentID).1 path
            ((ps path).getD 0 + (bytes.drop ((ps path).getD 0)).length), [], []) := by
      simp only [readFile, hc, hfirst, setPos_same, Option.getD_some, hdrop,
        List.length_nil, Nat.add_zero]
      simp [scanLines, scanLinesAux]
    refine ⟨⟨by rw [hsecond], by rw [hsecond]⟩, fun q => ?_⟩
    rw [hsecond]
    dsimp only
    rcases Decidable.em (q = path) with h | h
    · subst h
      rw [setPos_same, hfirst, setPos_same]
    · rw [setPos_other _ _ _ _ h]

/-- C3 counterexample: with the file "m" holding one line that does not end in
a newline, a tail pass from offset 0 parses and emits that line's event and
records the full file size as the offset — the trailing partial line is
consumed (the buffered scanner returns the final token at EOF), not left for
the next pass, and the offset is not the end of the last newline-terminated
line (which is 0 here). -/
theorem readFile_consumes_trailing_partial :
    (readFile partialFs noPositions "m" "s" "").2.1
      = [{ type := .thinking, sessionID := "s", agentName := "Main", content := "hi" }]
    ∧ (readFile partialFs noPositions "m" "s" "").1 "m" = some thinkLine.toList.length
    ∧ thinkLine.toList.length ≠ 0 :=
  ⟨rfl, rfl, by decide⟩

/-- C3 amended: a tail pass consumes every byte from the recorded offset to
end of file and records the end-of-consumption position (previous offset plus
bytes consumed); complete newline-terminated lines are tokenized at their
newlines, and a trailing line that does not end in a newline is also consumed,
as the final token. -/
theorem readFile_offset_and_partial_line (content : String → Option (List Char))
    (ps : Positions) (path sessionID agentID : String) (bytes : List Char)
    (hc : content path = some bytes) :
    ((readFile content ps path sessionID agentID).1 path
      = some ((ps path).getD 0 + (bytes.drop ((ps path).getD 0)).length))
    ∧ (∀ u v : List Char, '\n' ∉ u →
        scanLines (u ++ '\n' :: v) = dropCR u :: scanLines v)
    ∧ (∀ v : List Char, v ≠ [] → '\n' ∉ v → scanLines v = [dropCR v]) := by
  refine ⟨?_, fun u v hu => ?_, fun v hv hnl => ?_⟩
  · rw [readFile_pos_some content ps path sessionID agentID bytes hc, setPos_same]
  · simpa using scanLinesAux_middle v u [] hu
  · have := scanLinesAux_tail v [] hnl
    simpa [hv] using this

/-- Witness for C3's amended theorem at the partial-line file. -/
theorem readFile_offset_and_partial_line_witness :
    (readFile partialFs noPositions "m" "s" "").1 "m"
      = some ((noPositions "m").getD 0
          + (thinkLine.toList.drop ((noPositions "m").getD 0)).length) :=
  (readFile_offset_and_partial_line partialFs noPositions "m" "s" ""
    thinkLine.toList rfl).1

/-! Project-path resolver. -/

/-- Helper: the loop body as a test on the probe path. -/
theorem tryCandidate_eq (statOk : String → Bool) (parts : List (List Char))
    (joinFrom : Nat) :
    tryCandidate statOk parts joinFrom
      = if statOk ("/" ++ candidateAt parts joinFrom) then
          some (candidateAt parts joinFrom)
        else none := by
  simp only [tryCandidate, candidateAt]

/-- Helper: the descending loop is the first match over the candidate list. -/
theorem scanCandidates_eq_find (statOk : String → Bool)
    (parts : List (List Char)) :
    ∀ k : Nat, scanCandidates statOk parts k
      = (((List.range k).reverse.map fun j => candidateAt parts (j + 1)).find?
          fun c => statOk ("/" ++ c))
  | 0 => rfl
  | k + 1 => by
    have ih := scanCandidates_eq_find statOk parts k
    have hrange : (List.range (k + 1)).reverse.map (fun j => candidateAt parts (j + 1))
        = candidateAt parts (k + 1)
            :: ((List.range k).reverse.map fun j => candidateAt parts (j + 1)) := by
      rw [List.range_succ]
      simp
    rw [hrange]
    show (match tryCandidate statOk parts (k + 1) with
          | some r => some r
          | none => scanCandidates statOk parts k) = _
    rw [tryCandidate_eq]
    cases hp : statOk ("/" ++ candidateAt parts (k + 1)) with
    | false => simp [hp, ih, List.find?]
    | true => simp [hp, List.find?]

/-- C8: resolution scans the split points from the rightmost delimiter toward
the left and returns the first re-joined candidate whose probe path exists;
with no existing candidate it falls back to naive delimiter substitution
("-a-b-c" resolves to "a/b/c" when nothing matches), and the encoded empty
name (the delimiter alone) resolves to the empty string. -/
theorem resolveProjectPath_first_match (statOk : String → Bool)
    (encoded : String) :
    (trimPre encoded.toList ['-'] ≠ [] →
      resolveProjectPath statOk encoded
        = (match (resolveCandidates (trimPre encoded.toList ['-'])).find?
              (fun c => statOk ("/" ++ c)) with
           | some c => c
           | none => String.mk (replaceAllChar '-' '/' (trimPre encoded.toList ['-']))))
    ∧ resolveProjectPath statOk "-" = ""
    ∧ resolveProjectPath (fun _ => false) "-a-b-c" = "a/b/c" := by
  refine ⟨fun h => ?_, rfl, by decide⟩
  have hfind := scanCandidates_eq_find statOk
    (splitOnChar '-' (trimPre encoded.toList ['-']))
    ((splitOnChar '-' (trimPre encoded.toList ['-'])).length - 1)
  simp only [resolveProjectPath, if_neg h, resolveCandidates]
  rw [hfind]

/-- Witness for C8: a probe that exists only at the single-split candidate is
found (the delimiter inside the final segment name is restored). -/
theorem resolveProjectPath_first_match_witness :
    resolveProjectPath (fun p => p == "/a/b-c") "-a-b-c" = "a/b-c" :=
  ((resolveProjectPath_first_match (fun p => p == "/a/b-c") "-a-b-c").1
    (by decide)).trans rfl

/-- C9: the code resolves the projects root purely from the home directory,
ignoring the process environment: with CLAUDE_HOME set (the exact environment
of the repository's TestGetClaudeProjectsDir, which expects
"/tmp/test-claude/projects"), it still returns the home-based default, unlike
the spec-modelled resolution. -/
theorem getClaudeProjectsDir_ignores_env :
    getClaudeProjectsDir envC9 (some "/root") = .ok "/root/.claude/projects"
    ∧ getClaudeProjectsDirSpec envC9 (some "/root") = .ok "/tmp/test-claude/projects"
    ∧ ("/root/.claude/projects" : String) ≠ "/tmp/test-claude/projects" :=
  ⟨rfl, rfl, by decide⟩

/-! Session selection. -/

/-- Helper: in a list sorted by a reflexive relation, the first element
satisfying a predicate is related to every element satisfying it. -/
theorem find?_sorted_first_max {α : Type} {r : α → α → Prop} {p : α → Bool}
    (hrefl : ∀ x, r x x) :
    ∀ (l : List α), l.Pairwise r → ∀ a, l.find? p = some a →
      ∀ b ∈ l, p b = true → r a b
  | [], _, a, h => by simp [List.find?] at h
  | x :: xs, hp, a, hfind => by
    rcases List.pairwise_cons.mp hp with ⟨hx, hxs⟩
    intro b hb hpb
    by_cases hpx : p x
    · have hax : a = x := by
        rw [List.find?_cons_of_pos _ hpx] at hfind
        exact (Option.some.inj hfind).symm
      subst hax
      rcases List.mem_cons.mp hb with hbx | hbxs
      · subst hbx; exact hrefl _
      · exact hx b hbxs
    · have hfind' : xs.find? p = some a := by
        rw [List.find?_cons_of_neg _ hpx] at hfind
        exact hfind
      rcases List.mem_cons.mp hb with hbx | hbxs
      · subst hbx
        exact absurd hpb (by simpa using hpx)
      · exact find?_sorted_first_max hrefl xs hxs a hfind' b hbxs hpb

/-- C10: a watcher constructed with a non-empty session identifier selects a
most recently modified main session file whose full path contains the
identifier as a substring (so partial identifiers and project-directory
fragments also match), and fails exactly when no main file's path contains
it. -/
theorem findSession_most_recent_match (entries : List FsEntry)
    (sessionID : String) (hid : sessionID ≠ "") :
    (∀ path, findSession entries sessionID = .ok path →
      ∃ e, e ∈ entries ∧ e.path = path
        ∧ isMainSessionFile e.path e.isDir = true
        ∧ strContains e.path sessionID = true
        ∧ ∀ e2 ∈ entries, isMainSessionFile e2.path e2.isDir = true →
            strContains e2.path sessionID = true → e2.modTime ≤ e.modTime)
    ∧ ((∃ err, findSession entries sessionID = .error err) ↔
        ∀ e ∈ entries, isMainSessionFile e.path e.isDir = true →
          strContains e.path sessionID = false) := by
  have hperm := List.perm_insertionSort moreRecent
    (entries.filter fun e => isMainSessionFile e.path e.isDir)
  have hsorted : (List.insertionSort moreRecent
      (entries.filter fun e => isMainSessionFile e.path e.isDir)).Pairwise moreRecent :=
    List.sorted_insertionSort moreRecent _
  by_cases hempty : (entries.filter fun e => isMainSessionFile e.path e.isDir).isEmpty
  · have hnil : (entries.filter fun e => isMainSessionFile e.path e.isDir) = [] :=
      List.isEmpty_iff.mp hempty
    constructor
    · intro path hok
      simp [findSession, hempty] at hok
    · constructor
      · intro _ e he hmain
        have : e ∈ (entries.filter fun e => isMainSessionFile e.path e.isDir) :=
          List.mem_filter.mpr ⟨he, hmain⟩
        rw [hnil] at this
        simp at this
      · intro _
        exact ⟨"no session files found", by simp [findSession, hempty]⟩
  · cases hfind : (List.insertionSort moreRecent
        (entries.filter fun e => isMainSessionFile e.path e.isDir)).find?
        (fun f => strContains f.path sessionID) with
    | some f =>
      have hsel : findSession entries sessionID = .ok f.path := by
        simp [findSession, hempty, hid, hfind]
      have hfjf : f ∈ (entries.filter fun e => isMainSessionFile e.path e.isDir) :=
        hperm.mem_iff.mp (List.mem_of_find?_eq_some hfind)
      have hfmem := List.mem_filter.mp hfjf
      have hfcont : strContains f.path sessionID = true := by
        have := List.find?_some hfind
        simpa using this
      constructor
      · intro path hok
        rw [hsel] at hok
        refine ⟨f, hfmem.1, Except.ok.inj hok, hfmem.2, hfcont, ?_⟩
        intro e2 he2 hmain2 hcont2
        have he2s : e2 ∈ List.insertionSort moreRecent
            (entries.filter fun e => isMainSessionFile e.path e.isDir) :=
          hperm.mem_iff.mpr (List.mem_filter.mpr ⟨he2, hmain2⟩)
        exact @find?_sorted_first_max FsEntry moreRecent
          (fun f => strContains f.path sessionID) (fun x => le_refl x.modTime)
          _ hsorted f hfind e2 he2s hcont2
      · constructor
        · intro herr
          rcases herr with ⟨err, herr⟩
          rw [hsel] at herr
          exact absurd herr (by simp)
        · intro hall
          have := hall f hfmem.1 hfmem.2
          rw [hfcont] at this
          exact absurd this (by simp)
    | none =>
      have hsel : findSession entries sessionID
          = .error ("session " ++ sessionID ++ " not found") := by
        simp [findSession, hempty, hid, hfind]
      constructor
      · intro path hok
        rw [hsel] at hok
        exact absurd hok (by simp)
      · constructor
        · intro _ e he hmain
          have hes : e ∈ List.insertionSort moreRecent
              (entries.filter fun e => isMainSessionFile e.path e.isDir) :=
            hperm.mem_iff.mpr (List.mem_filter.mpr ⟨he, hmain⟩)
          have := List.find?_eq_none.mp hfind e hes
          simpa using this
        · intro _
          exact ⟨_, hsel⟩

/-- Witness for C10: among three main files, "beta" selects the most recently
modified of the two whose paths contain it. -/
theorem findSession_most_recent_match_witness :
    ∃ e, e ∈ entriesC10 ∧ e.path = "/r/-p/beta.jsonl"
      ∧ isMainSessionFile e.path e.isDir = true
      ∧ strContains e.path "beta" = true
      ∧ ∀ e2 ∈ entriesC10, isMainSessionFile e2.path e2.isDir = true →
          strContains e2.path "beta" = true → e2.modTime ≤ e.modTime :=
  (findSession_most_recent_match entriesC10 "beta" (by decide)).1
    "/r/-p/beta.jsonl" rfl

/-! Background-task correlation. -/

/-- Helper: association-list lookup distributes over append. -/
theorem lookup_append (k : String) :
    ∀ (l1 l2 : List (String × BackgroundTask)),
      (l1 ++ l2).lookup k
        = (match l1.lookup k with
           | some v => some v
           | none => l2.lookup k)
  | [], l2 => by simp [List.lookup]
  | (k1, v1) :: t, l2 => by
    cases hk : k == k1 with
    | true => simp [List.lookup, hk]
    | false => simp [List.lookup, hk, lookup_append k t l2]

/-- Helper: completion only reads the session's main file and subagents. -/
theorem isComplete_congr (l : String → List String) (s1 s2 : Session)
    (tid : String) (hm : s1.mainFile = s2.mainFile)
    (hs : s1.subagents = s2.subagents) :
    isBackgroundTaskComplete l s1 tid = isBackgroundTaskComplete l s2 tid := by
  simp [isBackgroundTaskComplete, hm, hs]

/-- Helper: one loop iteration never changes the session's identifier, main
file or subagents. -/
theorem bgStep_fields (fs : FileSys) (dir sessID : String)
    (acc : Session × List NewBackgroundTaskMsg) (name : String) :
    (bgStep fs dir sessID acc name).1.id = acc.1.id
    ∧ (bgStep fs dir sessID acc name).1.mainFile = acc.1.mainFile
    ∧ (bgStep fs dir sessID acc name).1.subagents = acc.1.subagents := by
  cases h1 : hasSuf name.toList ".txt".toList with
  | false =>
    simp only [bgStep]
    rw [h1]
    simp
  | true =>
    cases h2 : (acc.1.backgroundTasks.lookup
        (String.mk (trimSuf name.toList ".txt".toList))).isSome with
    | true =>
      simp only [bgStep]
      rw [h1, h2]
      simp
    | false =>
      simp only [bgStep]
      rw [h1, h2]
      simp

/-- Helper: one loop iteration preserves every tracked task unchanged. -/
theorem bgStep_preserves (fs : FileSys) (dir sessID : String)
    (acc : Session × List NewBackgroundTaskMsg) (name : String)
    (tid : String) (t : BackgroundTask)
    (h : acc.1.backgroundTasks.lookup tid = some t) :
    (bgStep fs dir sessID acc name).1.backgroundTasks.lookup tid = some t := by
  cases h1 : hasSuf name.toList ".txt".toList with
  | false =>
    simp only [bgStep]
    rw [h1]
    simpa using h
  | true =>
    cases h2 : (acc.1.backgroundTasks.lookup
        (String.mk (trimSuf name.toList ".txt".toList))).isSome with
    | true =>
      simp only [bgStep]
      rw [h1, h2]
      simpa using h
    | false =>
      simp only [bgStep]
      rw [h1, h2]
      simp only [Bool.not_true, Bool.false_eq_true, if_false]
      rw [lookup_append, h]

/-- Helper: one loop iteration gives a newly inserted task the completion
computed at that moment. -/
theorem bgStep_new_flag (fs : FileSys) (dir sessID : String)
    (acc : Session × List NewBackgroundTaskMsg) (name : String)
    (tid : String) (t : BackgroundTask)
    (hold : acc.1.backgroundTasks.lookup tid = none)
    (hnew : (bgStep fs dir sessID acc name).1.backgroundTasks.lookup tid = some t) :
    t.isComplete = isBackgroundTaskComplete fs.lines acc.1 tid := by
  cases h1 : hasSuf name.toList ".txt".toList with
  | false =>
    simp only [bgStep] at hnew
    rw [h1] at hnew
    simp at hnew
    rw [hold] at hnew
    exact absurd hnew (by simp)
  | true =>
    cases h2 : (acc.1.backgroundTasks.lookup
        (String.mk (trimSuf name.toList ".txt".toList))).isSome with
    | true =>
      simp only [bgStep] at hnew
      rw [h1, h2] at hnew
      simp at hnew
      rw [hold] at hnew
      exact absurd hnew (by simp)
    | false =>
      simp only [bgStep] at hnew
      rw [h1, h2] at hnew
      simp only [Bool.not_true, Bool.false_eq_true, if_false] at hnew
      rw [lookup_append, hold] at hnew
      cases hbeq : tid == String.mk (trimSuf name.toList ".txt".toList) with
      | false =>
        rw [List.lookup, hbeq] at hnew
        exact absurd hnew (by simp)
      | true =>
        rw [List.lookup, hbeq] at hnew
        have htid : tid = String.mk (trimSuf name.toList ".txt".toList) :=
          eq_of_beq hbeq
        rw [(Option.some.inj hnew).symm, htid]

/-- Helper: the whole directory loop keeps the id, main file and subagents. -/
theorem bgFold_fields (fs : FileSys) (dir sessID : String) :
    ∀ (entries : List String) (acc : Session × List NewBackgroundTaskMsg),
      (entries.foldl (bgStep fs dir sessID) acc).1.id = acc.1.id
      ∧ (entries.foldl (bgStep fs dir sessID) acc).1.mainFile = acc.1.mainFile
      ∧ (entries.foldl (bgStep fs dir sessID) acc).1.subagents = acc.1.subagents
  | [], acc => ⟨rfl, rfl, rfl⟩
  | name :: rest, acc => by
    have hstep := bgStep_fields fs dir sessID acc name
    have ih := bgFold_fields fs dir sessID rest (bgStep fs dir sessID acc name)
    exact ⟨ih.1.trans hstep.1, ih.2.1.trans hstep.2.1, ih.2.2.trans hstep.2.2⟩

/-- Helper: the whole directory loop preserves tracked tasks. -/
theorem bgFold_preserves (fs : FileSys) (dir sessID : String) :
    ∀ (entries : List String) (acc : Session × List NewBackgroundTaskMsg)
      (tid : String) (t : BackgroundTask),
      acc.1.backgroundTasks.lookup tid = some t →
      (entries.foldl (bgStep fs dir sessID) acc).1.backgroundTasks.lookup tid = some t
  | [], _, _, _, h => h
  | name :: rest, acc, tid, t, h =>
    bgFold_preserves fs dir sessID rest (bgStep fs dir sessID acc name) tid t
      (bgStep_preserves fs dir sessID acc name tid t h)

/-- Helper: a task absent from `base` and present after the loop received the
completion computed against `base`'s files at its own insertion. -/
theorem bgFold_new_flag (fs : FileSys) (dir sessID : String) (base : Session) :
    ∀ (entries : List String) (acc : Session × List NewBackgroundTaskMsg),
      acc.1.mainFile = base.mainFile → acc.1.subagents = base.subagents →
      (∀ tid t, acc.1.backgroundTasks.lookup tid = some t →
        base.backgroundTasks.lookup tid = none →
        t.isComplete = isBackgroundTaskComplete fs.lines base tid) →
      ∀ tid t,
        (entries.foldl (bgStep fs dir sessID) acc).1.backgroundTasks.lookup tid = some t →
        base.backgroundTasks.lookup tid = none →
        t.isComplete = isBackgroundTaskComplete fs.lines base tid
  | [], acc, _, _, hacc, tid, t, hres, hbase => hacc tid t hres hbase
  | name :: rest, acc, hm, hs, hacc, tid, t, hres, hbase => by
    have hstep := bgStep_fields fs dir sessID acc name
    refine bgFold_new_flag fs dir sessID base rest (bgStep fs dir sessID acc name)
      (hstep.2.1.trans hm) (hstep.2.2.trans hs) ?_ tid t hres hbase
    intro tid2 t2 h2 hbase2
    cases hold : acc.1.backgroundTasks.lookup tid2 with
    | some t3 =>
      have := bgStep_preserves fs dir sessID acc name tid2 t3 hold
      rw [this] at h2
      exact (Option.some.inj h2) ▸ hacc tid2 t3 hold hbase2
    | none =>
      have hflag := bgStep_new_flag fs dir sessID acc name tid2 t2 hold h2
      rw [hflag]
      exact isComplete_congr fs.lines acc.1 base tid2 hm hs

/-- C2 counterexample: after a first pass discovers task t1 with no matching
result record, a later pass that does see a matching tool-result record in the
main file leaves the task's completion flag false and emits nothing — the
completion check is not re-run for an already-tracked task, contradicting the
claim's "re-runs on every polling pass until it returns true". -/
theorem backgroundTask_completion_never_rechecked :
    (sessC2After1.backgroundTasks.lookup "t1").map (·.isComplete) = some false
    ∧ isBackgroundTaskComplete fs2C2.lines sessC2After1 "t1" = true
    ∧ ((checkForBackgroundTasks fs2C2 sessC2After1).1.backgroundTasks.lookup "t1").map
        (·.isComplete) = some false
    ∧ (checkForBackgroundTasks fs2C2 sessC2After1).2 = [] :=
  ⟨rfl, rfl, rfl, rfl⟩

/-- C2 amended: a background task's completion flag is assigned exactly once,
when the task is first discovered, to whether a matching tool-result record
exists at that moment; a pass over the tool-results directory never modifies
an already-tracked task (so the flag never changes afterwards, and a result
record appearing after discovery does not flip it), and never touches the
session's identifier, main file or subagents. -/
theorem checkForBackgroundTasks_flag_set_once (fs : FileSys) (s : Session) :
    (∀ tid t, s.backgroundTasks.lookup tid = some t →
        (checkForBackgroundTasks fs s).1.backgroundTasks.lookup tid = some t)
    ∧ (∀ tid t,
        (checkForBackgroundTasks fs s).1.backgroundTasks.lookup tid = some t →
        s.backgroundTasks.lookup tid = none →
        t.isComplete = isBackgroundTaskComplete fs.lines s tid)
    ∧ (checkForBackgroundTasks fs s).1.id = s.id
    ∧ (checkForBackgroundTasks fs s).1.mainFile = s.mainFile
    ∧ (checkForBackgroundTasks fs s).1.subagents = s.subagents := by
  cases hdir : fs.dirs (dirName s.mainFile ++ "/" ++ s.id ++ "/tool-results") with
  | none =>
    have hck : checkForBackgroundTasks fs s = (s, []) := by
      simp only [checkForBackgroundTasks, hdir]
    rw [hck]
    refine ⟨fun tid t h => h, fun tid t h hn => ?_, rfl, rfl, rfl⟩
    rw [h] at hn
    exact absurd hn (by simp)
  | some entries =>
    have hck : checkForBackgroundTasks fs s
        = entries.foldl
            (bgStep fs (dirName s.mainFile ++ "/" ++ s.id ++ "/tool-results") s.id)
            (s, []) := by
      simp only [checkForBackgroundTasks, hdir]
    rw [hck]
    have hfields := bgFold_fields fs
      (dirName s.mainFile ++ "/" ++ s.id ++ "/tool-results") s.id entries (s, [])
    refine ⟨fun tid t h => bgFold_preserves fs _ _ entries (s, []) tid t h,
      fun tid t h hn => ?_, hfields.1, hfields.2.1, hfields.2.2⟩
    refine bgFold_new_flag fs _ _ s entries (s, []) rfl rfl ?_ tid t h hn
    intro tid2 t2 h2 hn2
    rw [h2] at hn2
    exact absurd hn2 (by simp)

/-- Witness for C2's amended theorem: the already-tracked task of the
counterexample scenario is preserved unchanged by the second pass. -/
theorem checkForBackgroundTasks_flag_set_once_witness :
    (checkForBackgroundTasks fs2C2 sessC2After1).1.backgroundTasks.lookup "t1"
      = some taskC2 :=
  (checkForBackgroundTasks_flag_set_once fs2C2 sessC2After1).1 "t1" taskC2 rfl

/-! History-skip initialization. -/

/-- Helper: the newline scan from offset `i` is the scan from 0 shifted. -/
theorem newlinePositionsAux_shift :
    ∀ (bytes : List Char) (i : Nat),
      newlinePositionsAux bytes i = (newlinePositionsAux bytes 0).map (· + i)
  | [], _ => rfl
  | c :: rest, i => by
    by_cases hc : c = '\n'
    · simp only [newlinePositionsAux, if_pos hc, newlinePositionsAux_shift rest (i + 1),
        newlinePositionsAux_shift rest 1, List.map_cons, List.map_map]
      congr 1
      · omega
      · apply List.map_congr_left
        intro a _
        simp
        omega
    · simp only [newlinePositionsAux, if_neg hc, newlinePositionsAux_shift rest (i + 1),
        newlinePositionsAux_shift rest 1, List.map_map]
      apply List.map_congr_left
      intro a _
      simp
      omega

/-- Helper: unfolding one character of the newline scan. -/
theorem newlinePositions_cons (c : Char) (rest : List Char) :
    newlinePositions (c :: rest)
      = if c = '\n' then 1 :: (newlinePositions rest).map (· + 1)
        else (newlinePositions rest).map (· + 1) := by
  by_cases hc : c = '\n'
  · simp only [newlinePositions, newlinePositionsAux, if_pos hc,
      newlinePositionsAux_shift rest 1]
  · simp only [newlinePositions, newlinePositionsAux, if_neg hc,
      newlinePositionsAux_shift rest 1]

/-- Helper: one recorded position per newline. -/
theorem newlinePositions_length :
    ∀ bytes : List Char, (newlinePositions bytes).length = countNl bytes
  | [] => rfl
  | c :: rest => by
    rw [newlinePositions_cons]
    by_cases hc : c = '\n'
    · simp [hc, countNl, newlinePositions_length rest]
    · simp [hc, countNl, newlinePositions_length rest]

/-- Helper: the i-th recorded position sits one past a newline, with exactly
i+1 newlines before it. -/
theorem newlinePositions_spec :
    ∀ (bytes : List Char) (i p : Nat),
      (newlinePositions bytes).get? i = some p →
        1 ≤ p ∧ p ≤ bytes.length
        ∧ countNl (bytes.take p) = i + 1
        ∧ bytes.getD (p - 1) ' ' = '\n'
  | [], i, p, h => by simp [newlinePositions, newlinePositionsAux] at h
  | c :: rest, i, p, h => by
    rw [newlinePositions_cons] at h
    by_cases hc : c = '\n'
    · rw [if_pos hc] at h
      cases i with
      | zero =>
        simp at h
        subst h
        refine ⟨le_refl 1, by simp, ?_, by simp [hc]⟩
        simp [countNl, hc]
      | succ i' =>
        rw [List.get?_cons_succ, List.get?_map] at h
        cases hg : (newlinePositions rest).get? i' with
        | none => rw [hg] at h; exact absurd h (by simp)
        | some p' =>
          rw [hg] at h
          simp at h
          obtain ⟨ih1, ih2, ih3, ih4⟩ := newlinePositions_spec rest i' p' hg
          have hp : p = p' + 1 := by omega
          subst hp
          refine ⟨?_, ?_, ?_, ?_⟩
          · omega
          · simp
            omega
          · rw [List.take_succ_cons]
            simp [countNl, hc] at ih3 ⊢
            omega
          · have h1 : p' + 1 - 1 = (p' - 1) + 1 := by omega
            rw [h1, List.getD_cons_succ]
            exact ih4
    · rw [if_neg hc] at h
      rw [List.get?_map] at h
      cases hg : (newlinePositions rest).get? i with
      | none => rw [hg] at h; exact absurd h (by simp)
      | some p' =>
        rw [hg] at h
        simp at h
        obtain ⟨ih1, ih2, ih3, ih4⟩ := newlinePositions_spec rest i p' hg
        have hp : p = p' + 1 := by omega
        subst hp
        refine ⟨?_, ?_, ?_, ?_⟩
        · omega
        · simp
          omega
        · rw [List.take_succ_cons]
          simp [countNl, hc] at ih3 ⊢
          omega
        · have h1 : p' + 1 - 1 = (p' - 1) + 1 := by omega
          rw [h1, List.getD_cons_succ]
          exact ih4

/-- Helper: newlines split across a take/drop boundary. -/
theorem countNl_take_drop (bytes : List Char) (p : Nat) :
    countNl (bytes.take p) + countNl (bytes.drop p) = countNl bytes := by
  unfold countNl
  rw [← List.length_append, ← List.filter_append, List.take_append_drop]

/-- Helper: the characterization of findPositionForLastNLines claimed by the
spec: 0 when the file has n or fewer newlines, and otherwise the byte position
one past the n-th-from-last newline, leaving exactly n-1 newlines after it. -/
theorem findPositionForLastNLines_spec (content : String → Option (List Char))
    (path : String) (bytes : List Char) (n : Nat)
    (hc : content path = some bytes) :
    (countNl bytes ≤ n → findPositionForLastNLines content path n = 0)
    ∧ (1 ≤ n → n < countNl bytes →
        1 ≤ findPositionForLastNLines content path n
        ∧ bytes.getD (findPositionForLastNLines content path n - 1) ' ' = '\n'
        ∧ countNl (bytes.drop (findPositionForLastNLines content path n)) = n - 1) := by
  have hlen := newlinePositions_length bytes
  constructor
  · intro hle
    simp only [findPositionForLastNLines, hc]
    rw [if_pos (by omega)]
  · intro hn1 hgt
    have hi : (newlinePositions bytes).length - n < (newlinePositions bytes).length := by
      omega
    have hp := List.get?_eq_get hi
    have hspec := newlinePositions_spec bytes ((newlinePositions bytes).length - n)
      ((newlinePositions bytes).get ⟨(newlinePositions bytes).length - n, hi⟩) hp
    have hgetD : (newlinePositions bytes).getD ((newlinePositions bytes).length - n) 0
        = (newlinePositions bytes).get ⟨(newlinePositions bytes).length - n, hi⟩ := by
      rw [List.getD_eq_get?, hp]
      rfl
    have hres : findPositionForLastNLines content path n
        = (newlinePositions bytes).get ⟨(newlinePositions bytes).length - n, hi⟩ := by
      simp only [findPositionForLastNLines, hc]
      rw [if_neg (by omega), hgetD]
    rw [hres]
    have hsum := countNl_take_drop bytes
      ((newlinePositions bytes).get ⟨(newlinePositions bytes).length - n, hi⟩)
    refine ⟨hspec.1, hspec.2.2.2, ?_⟩
    have htake := hspec.2.2.1
    omega

/-- Helper: the skip loop over one session's subagent files writes each file's
last-N position. -/
theorem subSkipFold_val (content : String → Option (List Char)) :
    ∀ (aps : List (String × String)) (ps : Positions) (q : String),
      (aps.foldl (fun acc ap => setPos acc ap.2
          (findPositionForLastNLines content ap.2 KeepRecentLines)) ps) q
        = if q ∈ aps.map (·.2)
          then some (findPositionForLastNLines content q KeepRecentLines)
          else ps q
  | [], ps, q => by simp
  | ap :: rest, ps, q => by
    rw [List.foldl_cons, subSkipFold_val content rest _ q]
    by_cases hq : q ∈ rest.map (·.2)
    · simp [hq]
    · by_cases hqa : q = ap.2
      · subst hqa
        simp [hq, setPos_same]
      · simp [hq, hqa, setPos_other _ _ _ _ hqa]

/-- Helper: skipToEndOfFiles writes exactly the session's files. -/
theorem skipToEndOfFiles_val (content : String → Option (List Char))
    (ps : Positions) (s : Session) (q : String) :
    skipToEndOfFiles content ps s q
      = if q ∈ sessionFilesOf s
        then some (findPositionForLastNLines content q KeepRecentLines)
        else ps q := by
  unfold skipToEndOfFiles
  rw [subSkipFold_val]
  by_cases hq : q ∈ s.subagents.map (·.2)
  · simp [sessionFilesOf, hq]
  · by_cases hqm : q = s.mainFile
    · subst hqm
      simp [sessionFilesOf, hq, setPos_same]
    · simp [sessionFilesOf, hq, hqm, setPos_other _ _ _ _ hqm]

/-- Helper: the skip loop over all sessions writes each tracked file's last-N
position. -/
theorem sessSkipFold_val (content : String → Option (List Char)) :
    ∀ (sessions : List Session) (ps : Positions) (q : String),
      (sessions.foldl (fun acc s => skipToEndOfFiles content acc s) ps) q
        = if ∃ s ∈ sessions, q ∈ sessionFilesOf s
          then some (findPositionForLastNLines content q KeepRecentLines)
          else ps q
  | [], ps, q => by simp
  | s0 :: rest, ps, q => by
    rw [List.foldl_cons, sessSkipFold_val content rest _ q]
    by_cases hq : ∃ s ∈ rest, q ∈ sessionFilesOf s
    · rw [if_pos hq, if_pos ?side]
      case side =>
        rcases hq with ⟨s1, hs1, hf1⟩
        exact ⟨s1, List.mem_cons_of_mem s0 hs1, hf1⟩
    · rw [if_neg hq, skipToEndOfFiles_val]
      by_cases hq0 : q ∈ sessionFilesOf s0
      · rw [if_pos hq0, if_pos ⟨s0, List.mem_cons_self s0 rest, hq0⟩]
      · rw [if_neg hq0, if_neg ?side]
        case side =>
          rintro ⟨s1, hs1, hf1⟩
          rcases List.mem_cons.mp hs1 with h | h
          · exact hq0 (h ▸ hf1)
          · exact hq ⟨s1, h, hf1⟩

/-- Helper: the offset invariant of a startup tail pass — every file with
content either has no recorded offset yet, or is fully consumed — and what one
readFile does to it. -/
theorem readFile_P_step (content : String → Option (List Char)) (ps : Positions)
    (path sessionID agentID : String)
    (hP : ∀ q bytes, content q = some bytes → ps q = none ∨ ps q = some bytes.length) :
    (∀ q bytes, content q = some bytes →
      (readFile content ps path sessionID agentID).1 q = none
      ∨ (readFile content ps path sessionID agentID).1 q = some bytes.length)
    ∧ (∀ q bytes, content q = some bytes → ps q = some bytes.length →
        (readFile content ps path sessionID agentID).1 q = some bytes.length)
    ∧ (∀ bytes, content path = some bytes →
        (readFile content ps path sessionID agentID).1 path = some bytes.length) := by
  cases hc : content path with
  | none =>
    have hid : (readFile content ps path sessionID agentID).1 = ps := by
      simp [readFile, hc]
    rw [hid]
    refine ⟨hP, fun q bytes _ h => h, fun bytes h => ?_⟩
    exact absurd h (by simp)
  | some bytes0 =>
    have hpos := readFile_pos_some content ps path sessionID agentID bytes0 hc
    have hlen : (ps path).getD 0 + (bytes0.drop ((ps path).getD 0)).length
        = bytes0.length := by
      rcases hP path bytes0 hc with h0 | h0 <;> rw [h0] <;>
        simp [List.length_drop]
    refine ⟨fun q bytes hq => ?_, fun q bytes hq hsome => ?_, fun bytes hq => ?_⟩
    · by_cases hqp : q = path
      · subst hqp
        right
        have hb : bytes = bytes0 := Option.some.inj (hq.symm.trans hc)
        rw [hpos, setPos_same, hlen, hb]
      · rw [hpos, setPos_other _ _ _ _ hqp]
        exact hP q bytes hq
    · by_cases hqp : q = path
      · subst hqp
        have hb : bytes = bytes0 := Option.some.inj (hq.symm.trans hc)
        rw [hpos, setPos_same, hlen, hb]
      · rw [hpos, setPos_other _ _ _ _ hqp]
        exact hsome
    · have hb : bytes = bytes0 := (Option.some.inj hq).symm
      rw [hpos, setPos_same, hlen, hb]

/-- Helper: the tail loop over one session's subagent files, under the startup
offset invariant: the invariant is preserved, fully-consumed files stay so,
and every listed file with content ends fully consumed. -/
theorem readSubFold_P (content : String → Option (List Char)) (sid : String) :
    ∀ (aps : List (String × String)) (acc : Positions × List StreamItem × List String),
      (∀ q bytes, content q = some bytes → acc.1 q = none ∨ acc.1 q = some bytes.length) →
      (∀ q bytes, content q = some bytes →
        (aps.foldl (fun acc ap =>
            let next := readFile content acc.1 ap.2 sid ap.1
            (next.1, acc.2.1 ++ next.2.1, acc.2.2 ++ next.2.2)) acc).1 q = none
        ∨ (aps.foldl (fun acc ap =>
            let next := readFile content acc.1 ap.2 sid ap.1
            (next.1, acc.2.1 ++ next.2.1, acc.2.2 ++ next.2.2)) acc).1 q = some bytes.length)
      ∧ (∀ q bytes, content q = some bytes → acc.1 q = some bytes.length →
          (aps.foldl (fun acc ap =>
            let next := readFile content acc.1 ap.2 sid ap.1
            (next.1, acc.2.1 ++ next.2.1, acc.2.2 ++ next.2.2)) acc).1 q = some bytes.length)
      ∧ (∀ ap ∈ aps, ∀ bytes, content ap.2 = some bytes →
          (aps.foldl (fun acc ap =>
            let next := readFile content acc.1 ap.2 sid ap.1
            (next.1, acc.2.1 ++ next.2.1, acc.2.2 ++ next.2.2)) acc).1 ap.2 = some bytes.length)
  | [], acc, hP => ⟨hP, fun _ _ _ h => h, by simp⟩
  | ap0 :: rest, acc, hP => by
    have hstep := readFile_P_step content acc.1 ap0.2 sid ap0.1 hP
    have ih := readSubFold_P content sid rest
      (let next := readFile content acc.1 ap0.2 sid ap0.1
       (next.1, acc.2.1 ++ next.2.1, acc.2.2 ++ next.2.2)) hstep.1
    rw [List.foldl_cons]
    refine ⟨ih.1, fun q bytes hq hsome => ?_, fun ap1 hap1 bytes hq => ?_⟩
    · exact ih.2.1 q bytes hq (hstep.2.1 q bytes hq hsome)
    · rcases List.mem_cons.mp hap1 with h | h
      · subst h
        exact ih.2.1 ap1.2 bytes hq (hstep.2.2 bytes hq)
      · exact ih.2.2 ap1 h bytes hq

/-- Helper: a whole session's startup tail pass under the offset invariant. -/
theorem readSessionFiles_P (content : String → Option (List Char)) (s : Session)
    (ps : Positions)
    (hP : ∀ q bytes, content q = some bytes → ps q = none ∨ ps q = some bytes.length) :
    (∀ q bytes, content q = some bytes →
      (readSessionFiles content ps s).1 q = none
      ∨ (readSessionFiles content ps s).1 q = some bytes.length)
    ∧ (∀ q bytes, content q = some bytes → ps q = some bytes.length →
        (readSessionFiles content ps s).1 q = some bytes.length)
    ∧ (∀ f ∈ sessionFilesOf s, ∀ bytes, content f = some bytes →
        (readSessionFiles content ps s).1 f = some bytes.length) := by
  have hmain := readFile_P_step content ps s.mainFile s.id "" hP
  have hfold := readSubFold_P content s.id s.subagents
    (readFile content ps s.mainFile s.id "") hmain.1
  unfold readSessionFiles
  refine ⟨hfold.1, fun q bytes hq hsome => ?_, fun f hf bytes hq => ?_⟩
  · exact hfold.2.1 q bytes hq (hmain.2.1 q bytes hq hsome)
  · rcases List.mem_cons.mp hf with h | h
    · subst h
      exact hfold.2.1 _ bytes hq (hmain.2.2 bytes hq)
    · rcases List.mem_map.mp h with ⟨ap, hap, hap2⟩
      subst hap2
      exact hfold.2.2 ap hap bytes hq

/-- Helper: the startup tail pass over all sessions. -/
theorem readSessFold_P (content : String → Option (List Char)) :
    ∀ (sessions : List Session) (acc : Positions × List StreamItem × List String),
      (∀ q bytes, content q = some bytes → acc.1 q = none ∨ acc.1 q = some bytes.length) →
      (∀ q bytes, content q = some bytes → acc.1 q = some bytes.length →
        (sessions.foldl (fun acc s =>
            let next := readSessionFiles content acc.1 s
            (next.1, acc.2.1 ++ next.2.1, acc.2.2 ++ next.2.2)) acc).1 q = some bytes.length)
      ∧ (∀ s ∈ sessions, ∀ f ∈ sessionFilesOf s, ∀ bytes, content f = some bytes →
          (sessions.foldl (fun acc s =>
            let next := readSessionFiles content acc.1 s
            (next.1, acc.2.1 ++ next.2.1, acc.2.2 ++ next.2.2)) acc).1 f = some bytes.length)
  | [], acc, _ => ⟨fun _ _ _ h => h, by simp⟩
  | s0 :: rest, acc, hP => by
    have hsess := readSessionFiles_P content s0 acc.1 hP
    have ih := readSessFold_P content rest
      (let next := readSessionFiles content acc.1 s0
       (next.1, acc.2.1 ++ next.2.1, acc.2.2 ++ next.2.2)) hsess.1
    rw [List.foldl_cons]
    refine ⟨fun q bytes hq hsome => ?_, fun s1 hs1 f hf bytes hq => ?_⟩
    · exact ih.1 q bytes hq (hsess.2.1 q bytes hq hsome)
    · rcases List.mem_cons.mp hs1 with h | h
      · subst h
        exact ih.1 f bytes hq (hsess.2.2 f hf bytes hq)
      · exact ih.2 s1 h f hf bytes hq

/-- C5 counterexample: skip-history explicitly requested with only 11 total
pre-existing lines (below the 100-line threshold): the claim's "otherwise
every file is read from offset 0" demands a full read from 0, but the code
initializes the file's offset to 4 — the position after the first newline,
preserving the last 10 lines — consuming nothing. -/
theorem initializeSessionReading_skip_requested :
    countTotalLines fsC5 [sessC5] = 11
    ∧ (initializeSessionReading true fsC5 noPositions [sessC5]).1 "/p/-x/s5.jsonl" = some 4
    ∧ (initializeSessionReading true fsC5 noPositions [sessC5]).2.1 = []
    ∧ (initializeSessionReading true fsC5 noPositions [sessC5]).2.2 = []
    ∧ elevenLines.length = 22
    ∧ (4 : Nat) ≠ 0 ∧ (4 : Nat) ≠ 22 :=
  ⟨rfl, rfl, rfl, rfl, rfl, by decide, by decide⟩

/-- C5 amended: at startup, if skip-history was requested or the aggregate
newline count across all tracked files exceeds the threshold of 100, every
tracked file's offset is initialized to findPositionForLastNLines with N = 10;
otherwise every tracked file is read in full from offset 0 (its offset ends at
its size). The last-N position is 0 when the file has at most N newlines, and
otherwise is the byte position one past the N-th-from-last newline, leaving
exactly N-1 newlines after it. -/
theorem initializeSessionReading_offsets (skip : Bool)
    (content : String → Option (List Char)) (sessions : List Session) :
    (skip = true ∨ countTotalLines content sessions > AutoSkipLineThreshold →
      ∀ s ∈ sessions, ∀ f ∈ sessionFilesOf s,
        (initializeSessionReading skip content noPositions sessions).1 f
          = some (findPositionForLastNLines content f KeepRecentLines))
    ∧ (skip = false → countTotalLines content sessions ≤ AutoSkipLineThreshold →
        ∀ s ∈ sessions, ∀ f ∈ sessionFilesOf s, ∀ bytes, content f = some bytes →
          (initializeSessionReading skip content noPositions sessions).1 f
            = some bytes.length)
    ∧ (∀ path bytes n, content path = some bytes →
        (countNl bytes ≤ n → findPositionForLastNLines content path n = 0)
        ∧ (1 ≤ n → n < countNl bytes →
            1 ≤ findPositionForLastNLines content path n
            ∧ bytes.getD (findPositionForLastNLines content path n - 1) ' ' = '\n'
            ∧ countNl (bytes.drop (findPositionForLastNLines content path n)) = n - 1)) := by
  refine ⟨?_, ?_, fun path bytes n hc => findPositionForLastNLines_spec content path bytes n hc⟩
  · intro hcond s hs f hf
    have hskip : (skip || decide (countTotalLines content sessions > AutoSkipLineThreshold))
        = true := by
      rcases hcond with h | h
      · rw [h]
        simp
      · simp [h]
    have heq : initializeSessionReading skip content noPositions sessions
        = (sessions.foldl (fun acc s => skipToEndOfFiles content acc s) noPositions,
           [], []) := by
      simp only [initializeSessionReading, hskip, if_true]
    rw [heq]
    dsimp only
    rw [sessSkipFold_val]
    rw [if_pos ⟨s, hs, hf⟩]
  · intro hskipf hle s hs f hf bytes hc
    have hskip : (skip || decide (countTotalLines content sessions > AutoSkipLineThreshold))
        = false := by
      rw [hskipf]
      simp
      omega
    have heq : initializeSessionReading skip content noPositions sessions
        = sessions.foldl
            (fun acc s =>
              let next := readSessionFiles content acc.1 s
              (next.1, acc.2.1 ++ next.2.1, acc.2.2 ++ next.2.2))
            (noPositions, ([] : List StreamItem), ([] : List String)) := by
      simp only [initializeSessionReading, hskip, Bool.false_eq_true, if_false]
    rw [heq]
    exact (readSessFold_P content sessions (noPositions, [], [])
      (fun q bytes _ => Or.inl rfl)).2 s hs f hf bytes hc

/-- Witness for C5's amended theorem at the skip-requested scenario. -/
theorem initializeSessionReading_offsets_witness :
    (initializeSessionReading true fsC5 noPositions [sessC5]).1 "/p/-x/s5.jsonl"
      = some (findPositionForLastNLines fsC5 "/p/-x/s5.jsonl" KeepRecentLines) :=
  (initializeSessionReading_offsets true fsC5 [sessC5]).1 (Or.inl rfl)
    sessC5 (List.mem_singleton.mpr rfl) "/p/-x/s5.jsonl"
    (List.mem_cons_self _ _)

end ClaudeEsp
